import Mathlib

/-!
Verification development for the friendlyshell command dispatch and
session-nesting engine (src/friendlyshell/base_shell.py and
src/friendlyshell/command_complete_mixin.py).

The Python code is shallowly embedded: pure logic becomes Lean functions,
the mutable `_done` flags of a chain of nested shells become a `List Bool`
(the current session's flag at the head, ancestors following), the global
readline state becomes an explicit record threaded through the history
context managers, and the read-eval loop becomes structural recursion over
a finite list of input events.
-/

namespace FriendlyShell

/-! ## Parsed command line

Ephemeral result of tokenizing one input line (`parser.command`,
`parser.params` in the Python code). -/
structure ParsedLine where
  command : String
  params : List String
  deriving Repr, DecidableEq

/-! ## Argument binder

`checkParams` embeds `BaseShell._check_params` (base_shell.py lines
239-270): the handler's parameter counts are abstracted to the two numbers
the code extracts via introspection (`_count_required_params`,
`_count_params`).  The Python method reports an error and returns `False`
on an arity violation; the embedding returns the boolean and the loop
embedding below attaches the report. -/
def checkParams (numRequired numTotal numTokens : Nat) : Bool :=
  if numTotal = 0 ∧ numTokens ≠ 0 then false
  else if numTokens < numRequired then false
  else true

/-- Embedding of the argument-shaping logic of `BaseShell._execute_command`
(base_shell.py lines 113-138): with no tokens the handler is called with no
arguments; with more tokens than declared parameters the trailing
`len(params) - total + 1` tokens are joined with single spaces into the
last argument (Python `params[-n:]` / `params[:-n]` become `List.drop` /
`List.take` at `length - n`, which agrees with Python's clamping because
natural subtraction truncates at zero). -/
def bindArgs (numTotal : Nat) (ps : List String) : List String :=
  if ps = [] then []
  else if numTotal < ps.length then
    let numToCompress := ps.length - numTotal + 1
    ps.take (ps.length - numToCompress) ++
      [String.intercalate " " (ps.drop (ps.length - numToCompress))]
  else ps

/-- Composition of the arity gate and the binder exactly as `BaseShell.run`
performs it (lines 234-237): `_check_params` decides whether the handler is
invoked at all, and on success `_execute_command` shapes the tokens into
the argument list.  `none` means the handler is never invoked. -/
def dispatch (numRequired numTotal : Nat) (ps : List String) :
    Option (List String) :=
  if checkParams numRequired numTotal ps.length then
    some (bindArgs numTotal ps)
  else none

/-! ## Session termination flags

A chain of nested shells is represented by the list of their `_done`
flags: the head is the current session, the tail its ancestors in order
(`_parent` back-pointers). -/
/-- The assignment `self._done = True` on the current session only. -/
def setDone : List Bool → List Bool
  | [] => []
  | _ :: anc => true :: anc

/-- Embedding of `BaseShell.do_exit` (base_shell.py lines 380-387):
set the current session's flag and recurse into the parent chain. -/
def doExit : List Bool → List Bool
  | [] => []
  | _ :: anc => true :: doExit anc

/-- Embedding of `BaseShell.do_close` (base_shell.py lines 389-398):
set only the current session's flag. -/
def doClose (d : List Bool) : List Bool :=
  setDone d

/-! ## Command registry / resolver

`BaseShell._find_command` (base_shell.py lines 344-378) scans the
instance's methods: a method named `do_<name>` is the handler for `name`,
and a method named `alias_<target>` whose zero-argument call returns `s`
declares `s` as a shorthand for the command `target`.  The embedding keeps
the suffixes: `cmds` lists the names `x` with a `do_x` method (the handler
is identified by that name), `aliases` lists pairs `(target, shorthand)`
for each `alias_<target>` method, in enumeration order. -/
structure ShellMethods where
  cmds : List String
  aliases : List (String × String)
  deriving Repr, DecidableEq

/-- Fueled embedding of `BaseShell._find_command`: first an exact
`do_<name>` match, otherwise the first `alias_` method whose reported
shorthand equals the name causes a recursive lookup of its target.  The
Python recursion has no bound; `none` records that the given fuel was
exhausted without the recursion settling, `some none` is the code's
`return None` (command not found), `some (some c)` is a binding to the
handler of command `c`. -/
def findFuel : Nat → ShellMethods → String → Option (Option String)
  | 0, _, _ => none
  | fuel + 1, sh, name =>
    if name ∈ sh.cmds then some (some name)
    else
      match sh.aliases.find? (fun p => p.2 == name) with
      | some p => findFuel fuel sh p.1
      | none => some none

/-- The resolution of `name` settles on result `r` at some finite
recursion depth. -/
def resolves (sh : ShellMethods) (name : String) (r : Option String) :
    Prop :=
  ∃ fuel, findFuel fuel sh name = some r

/-! ## Session loop

`BaseShell.run` (base_shell.py lines 188-237) reads lines until `_done`,
skipping unusable lines and comments, expanding environment variables,
tokenizing, resolving, arity-checking and invoking.  The input source is
modelled as a finite list of events, each describing what one
`_get_input` call encounters; an exhausted list behaves like the
`readline()` end-of-stream (`EOFError`, treated as `do_exit`). -/
inductive InEvent
  | line (s : String)
  | interrupt
  | eof
  | inputError
  deriving Repr, DecidableEq

/-- What an invoked handler does to the session chain: nothing, a call to
`do_exit`, or a call to `do_close`.  Handlers are host code; this is the
abstraction of their only engine-visible state effect. -/
inductive Effect
  | unchanged
  | exitShell
  | closeShell
  deriving Repr, DecidableEq

/-- How an invoked handler returns: normally, raising an exception
(caught by the `except Exception` clause of `_execute_command`), or
interrupted by the user (caught by the `except KeyboardInterrupt`
clause). -/
inductive HOutcome
  | normal
  | raiseErr
  | interrupt
  deriving Repr, DecidableEq

/-- A command handler binding: the two parameter counts the code reads
off the handler's signature, and the handler's behaviour on the bound
argument list. -/
structure Handler where
  req : Nat
  total : Nat
  act : List String → Effect × HOutcome

/-- One shell configuration: the comment delimiter, the environment
substitution (`os.path.expandvars`, an external collaborator), the
tokenizer (`_parse_line`; `none` is a `ParseException`), the method table
driving `_find_command`, the handler bindings, and the fuel given to the
fueled resolver. -/
structure Cfg where
  commentDelim : String
  expand : String → String
  parse : String → Option ParsedLine
  shell : ShellMethods
  handlers : String → Handler
  fuel : Nat

/-- Observable record of one loop iteration: whether the tokenizer ran,
whether command resolution ran, whether the handler was invoked, and the
error-level reports emitted (one marker string per `self.error` site). -/
structure Trace where
  tokenized : Bool
  resolved : Bool
  invoked : Bool
  reported : List String
  deriving Repr, DecidableEq

def applyEff : Effect → List Bool → List Bool
  | .unchanged, d => d
  | .exitShell, d => doExit d
  | .closeShell, d => doClose d

/-- Embedding of Python `line.startswith(delim)` on the character lists of
the two strings (kept kernel-computable). -/
def strStartsWith (s pre : String) : Bool :=
  pre.toList.isPrefixOf s.toList

/-- Error reports of `_execute_command`: an exception raised by the
handler is summarized at error level; a user interrupt and a normal
return produce no error-level report. -/
def reportOf : HOutcome → List String
  | .raiseErr => ["Unknown error detected"]
  | _ => []

/-- The handler invocation step of `_execute_command` once the arity gate
has passed: the tokens are shaped by `bindArgs`, the handler runs, its
state effect is applied to the done chain, and a raised exception is
reported. -/
def invokeHandler (hl : Handler) (ps : List String) (d : List Bool) :
    List Bool × Trace :=
  (applyEff (hl.act (bindArgs hl.total ps)).1 d,
    ⟨true, true, true, reportOf (hl.act (bindArgs hl.total ps)).2⟩)

/-- Embedding of `BaseShell._get_input` (base_shell.py lines 63-105) on
one input event: a line passes through; `KeyboardInterrupt` sets the
current session's `_done` and yields no line; `EOFError` calls `do_exit`
and yields no line; any other exception reports an error, sets `_done`
and yields no line.  The third component lists the error-level reports. -/
def getInputEv : InEvent → List Bool → Option String × List Bool × List String
  | .line s, d => (some s, d, [])
  | .interrupt, d => (none, setDone d, [])
  | .eof, d => (none, doExit d, [])
  | .inputError, d =>
    (none, setDone d, ["Unexpected error during input sequence"])

/-- The loop guard `while not self._done` for the current session (an
empty chain is treated as terminated). -/
def selfDone : List Bool → Bool
  | [] => true
  | b :: _ => b

/-- Embedding of the body of `BaseShell.run` for one acquired line
(base_shell.py lines 213-237): discard an unusable line, skip comments,
expand the environment, tokenize, resolve, arity-check and invoke.  The
result is `none` when command resolution never settles (the unbounded
`_find_command` recursion), otherwise the updated done chain and the
iteration trace. -/
def processLine (cfg : Cfg) (s : String) (d : List Bool) :
    Option (List Bool × Trace) :=
  if s = "" then some (d, ⟨false, false, false, []⟩)
  else if strStartsWith s cfg.commentDelim then
    some (d, ⟨false, false, false, []⟩)
  else
    match cfg.parse (cfg.expand s) with
    | none => some (d, ⟨true, false, false, ["Parsing error"]⟩)
    | some p =>
      match findFuel cfg.fuel cfg.shell p.command with
      | none => none
      | some none => some (d, ⟨true, true, false, ["Command not found"]⟩)
      | some (some cname) =>
        if checkParams (cfg.handlers cname).req (cfg.handlers cname).total
            p.params.length then
          some (invokeHandler (cfg.handlers cname) p.params d)
        else some (d, ⟨true, true, false, ["Command arity error"]⟩)

/-- Embedding of the `while not self._done` loop of `BaseShell.run` over
a finite event list.  `none` means the iteration crashed (unsettled
resolution); otherwise the final done chain when the loop exits. -/
def runLoop (cfg : Cfg) : List InEvent → List Bool → Option (List Bool)
  | [], d => if selfDone d then some d else some (doExit d)
  | InEvent.line s :: rest, d =>
    if selfDone d then some d
    else
      match processLine cfg s d with
      | none => none
      | some r => runLoop cfg rest r.1
  | InEvent.interrupt :: rest, d =>
    if selfDone d then some d else runLoop cfg rest (setDone d)
  | InEvent.eof :: rest, d =>
    if selfDone d then some d else runLoop cfg rest (doExit d)
  | InEvent.inputError :: rest, d =>
    if selfDone d then some d else runLoop cfg rest (setDone d)

/-- Modelled from the spec: the tokenizer (`default_line_parser` from
friendlyshell/command_parsers.py, a module not present under src) as
specified in the spec's tokenizer contract — a command token followed by
zero or more whitespace-delimited parameter tokens, with full-line
failure when the grammar cannot match; a line containing no token at all
(empty or whitespace-only) therefore fails to parse.  Quoted tokens are
not exercised by any claim and are not modelled.  `tokenizeAux` splits a
character list at whitespace, accumulating the current token reversed. -/
def tokenizeAux : List Char → List Char → List String
  | [], acc => if acc = [] then [] else [String.mk acc.reverse]
  | c :: rest, acc =>
    if c.isWhitespace then
      if acc = [] then tokenizeAux rest []
      else String.mk acc.reverse :: tokenizeAux rest []
    else tokenizeAux rest (c :: acc)

/-- Modelled from the spec: the whitespace tokenization step of the
missing parser module (see `tokenizeAux`). -/
def specParse (s : String) : Option ParsedLine :=
  match tokenizeAux s.toList [] with
  | [] => none
  | c :: ps => some ⟨c, ps⟩

/-- Concrete shell configuration used by closed witnesses: comment
delimiter `#`, identity environment expansion, the spec-modelled
tokenizer, a shell whose only commands are `exit` and `close`, and
handlers that perform `do_exit` with no parameters. -/
def cfg7 : Cfg :=
  ⟨"#", id, specParse, ⟨["exit", "close"], []⟩,
    fun _ => ⟨0, 0, fun _ => (Effect.exitShell, HOutcome.normal)⟩, 5⟩

/-- A shell whose host class defines two alias methods forming a cycle and
no command methods: `alias_a()` returns the shorthand `b` and `alias_b()`
returns the shorthand `a`. -/
def cycShell : ShellMethods :=
  ⟨[], [("a", "b"), ("b", "a")]⟩

/-- A shell with command methods `do_a` and `do_b` together with an alias
method `alias_b()` returning the shorthand `a`: the alias provider has
shorthand `a` and target command `b`, but the shorthand is shadowed by the
real command `a`. -/
def sh8 : ShellMethods :=
  ⟨["a", "b"], [("b", "a")]⟩

/-- A shell with one command method `do_b` and an alias method `alias_b()`
returning the unshadowed shorthand `a`. -/
def shW : ShellMethods :=
  ⟨["b"], [("b", "a")]⟩

/-! ## Done-flag monotonicity -/
/-- No flag already `true` in `d` is `false` in `d2`. -/
def monoDone (d d2 : List Bool) : Prop :=
  ∀ i, d.get? i = some true → d2.get? i = some true

/-! ## History isolation manager

`command_complete_mixin.py` manipulates the process-global readline
state: an in-memory history buffer, a completer callback, and history
files on disk.  The state is made explicit as `RLState`; the two
`@contextmanager` generators become functions taking the scope body as a
state transformer returning the new state and how the body exited
(normally or by raising).  When the body raises, a generator's `finally`
blocks still run but any code after the inner `with` that is not in a
`finally` is skipped — exactly as in Python. -/
inductive ExitKind
  | normal
  | raised
  deriving Repr, DecidableEq

structure RLState where
  history : List String
  completer : Option String
  files : String → Option (List String)

/-- `readline.set_history_length(1000)` executed at module import
(command_complete_mixin.py line 17) caps how many entries
`write_history_file` persists. -/
def historyCap : Nat := 1000

def writeCap (h : List String) : List String :=
  h.drop (h.length - historyCap)

/-- `readline.read_history_file(p)`: append the file's entries to the
in-memory buffer (call sites only invoke it on existing files). -/
def read_history_file (p : String) (st : RLState) : RLState :=
  match st.files p with
  | some es => { st with history := st.history ++ es }
  | none => st

/-- `readline.write_history_file(p)`: persist the buffer (capped) to the
file. -/
def write_history_file (p : String) (st : RLState) : RLState :=
  { st with
    files := fun q => if q = p then some (writeCap st.history)
      else st.files q }

/-- `readline.clear_history()`. -/
def clear_history (st : RLState) : RLState :=
  { st with history := [] }

/-- `tempfile.NamedTemporaryFile()` creating its (empty) backing file. -/
def createFile (p : String) (st : RLState) : RLState :=
  { st with files := fun q => if q = p then some [] else st.files q }

/-- Deletion of the temporary file when the `with tempfile...` block is
left (on any path). -/
def removeFile (p : String) (st : RLState) : RLState :=
  { st with files := fun q => if q = p then none else st.files q }

/-- Embedding of `_autocomplete_helper` (command_complete_mixin.py lines
24-61): preload history when the given file exists, save the old
completer and install the new one; after the body — normally or raising —
the `finally` block restores the old completer and, when a history file
was given (`if history_file:`), persists the buffer to it; a raised
exception then continues to propagate. -/
def autocomplete_helper (callback : String) (histFile : Option String)
    (body : RLState → RLState × ExitKind) (st : RLState) :
    RLState × ExitKind :=
  let st1 := match histFile with
    | some p => if (st.files p).isSome then read_history_file p st else st
    | none => st
  let old := st1.completer
  let st2 := { st1 with completer := some callback }
  let r := body st2
  let st4 := { r.1 with completer := old }
  match histFile with
  | some p => (if p = "" then st4 else write_history_file p st4, r.2)
  | none => (st4, r.2)

/-- Embedding of `auto_complete_manager` (command_complete_mixin.py lines
64-113): a passthrough when readline is unavailable; the plain helper
when no history is currently loaded; otherwise the nested protocol —
save the parent's buffer to a temporary file, clear the buffer, run the
helper around the body, and only after a NORMAL return clear the buffer
again and reload the parent's snapshot (the two restore statements at
lines 112-113 are not inside a `finally`, so a raising body skips
them; the temporary file is deleted on every path). -/
def auto_complete_manager (enabled : Bool) (callback : String)
    (histFile : Option String) (tempName : String)
    (body : RLState → RLState × ExitKind) (st : RLState) :
    RLState × ExitKind :=
  if !enabled then body st
  else if st.history.length = 0 then
    autocomplete_helper callback histFile body st
  else
    let stB := write_history_file tempName (createFile tempName st)
    let r := autocomplete_helper callback histFile body (clear_history stB)
    match r.2 with
    | ExitKind.normal =>
      (removeFile tempName (read_history_file tempName (clear_history r.1)),
        ExitKind.normal)
    | ExitKind.raised => (removeFile tempName r.1, ExitKind.raised)

/-- Parent readline state for the C4 evaluation: two history entries, an
installed completer, and no files on disk. -/
def c4_parent_state : RLState :=
  ⟨["a", "b"], some "old", fun _ => none⟩

/-- Nested-scope body for the C4 evaluation: appends its own two entries
and then terminates abnormally. -/
def c4_body : RLState → RLState × ExitKind :=
  fun st => ({ st with history := st.history ++ ["c", "d"] },
    ExitKind.raised)

/-! ## Helper lemmas -/
theorem doExit_eq_replicate (d : List Bool) :
    doExit d = List.replicate d.length true := by
  induction d with
  | nil => rfl
  | cons b anc ih => simp [doExit, List.replicate, ih]

theorem length_bindArgs_overflow (numTotal : Nat) (ps : List String)
    (hT : 0 < numTotal) (hlen : numTotal < ps.length) :
    bindArgs numTotal ps =
      ps.take (numTotal - 1) ++
        [String.intercalate " " (ps.drop (numTotal - 1))] := by
  have hne : ps ≠ [] := by
    intro h
    rw [h] at hlen
    simp at hlen
  have harith : ps.length - (ps.length - numTotal + 1) = numTotal - 1 := by
    omega
  simp only [bindArgs, if_neg hne, if_pos hlen, harith]

theorem findFuel_alias_step (sh : ShellMethods) (s t : String) (fuel : Nat)
    (hs : s ∉ sh.cmds)
    (ha : sh.aliases.find? (fun p => p.2 == s) = some (t, s)) :
    findFuel (fuel + 1) sh s = findFuel fuel sh t := by
  simp only [findFuel]
  rw [if_neg hs, ha]

theorem sh8_b_settles (fuel : Nat) :
    findFuel (fuel + 1) sh8 "b" = some (some "b") := by
  simp only [findFuel]
  rw [if_pos (show "b" ∈ sh8.cmds by decide)]

theorem monoDone_refl (d : List Bool) : monoDone d d :=
  fun _ h => h

theorem monoDone_trans {a b c : List Bool}
    (h1 : monoDone a b) (h2 : monoDone b c) : monoDone a c :=
  fun i h => h2 i (h1 i h)

theorem setDone_mono (d : List Bool) : monoDone d (setDone d) := by
  intro i
  cases d with
  | nil => simp [setDone]
  | cons b t =>
    cases i with
    | zero => simp [setDone]
    | succ j => simp [setDone]

theorem doExit_mono (d : List Bool) : monoDone d (doExit d) := by
  intro i
  induction d generalizing i with
  | nil => simp [doExit]
  | cons b t ih =>
    cases i with
    | zero => simp [doExit]
    | succ j => simpa [doExit] using ih j

theorem doClose_mono (d : List Bool) : monoDone d (doClose d) :=
  setDone_mono d

theorem applyEff_mono (e : Effect) (d : List Bool) :
    monoDone d (applyEff e d) := by
  cases e with
  | unchanged => exact monoDone_refl d
  | exitShell => exact doExit_mono d
  | closeShell => exact doClose_mono d

theorem invokeHandler_inv (hl : Handler) (ps : List String)
    (d : List Bool) :
    (invokeHandler hl ps d).2.invoked = true ∧
    ((invokeHandler hl ps d).1 = d ∨ (invokeHandler hl ps d).1 = doExit d ∨
      (invokeHandler hl ps d).1 = doClose d) := by
  refine ⟨rfl, ?_⟩
  unfold invokeHandler
  cases (hl.act (bindArgs hl.total ps)).1 <;> simp [applyEff]

/-- Inversion of one line-processing step: either the done chain is
untouched, or the handler was invoked and performed `do_exit` or
`do_close`. -/
theorem processLine_inv (cfg : Cfg) (s : String) (d d2 : List Bool)
    (tr : Trace) (h : processLine cfg s d = some (d2, tr)) :
    d2 = d ∨ (tr.invoked = true ∧ (d2 = doExit d ∨ d2 = doClose d)) := by
  unfold processLine at h
  split at h
  · simp only [Option.some.injEq, Prod.mk.injEq] at h
    exact Or.inl h.1.symm
  · split at h
    · simp only [Option.some.injEq, Prod.mk.injEq] at h
      exact Or.inl h.1.symm
    · split at h
      · simp only [Option.some.injEq, Prod.mk.injEq] at h
        exact Or.inl h.1.symm
      · split at h
        · exact Option.noConfusion h
        · simp only [Option.some.injEq, Prod.mk.injEq] at h
          exact Or.inl h.1.symm
        · split at h
          · rename_i pl hpeq fs cname hfind hchk
            simp only [Option.some.injEq] at h
            obtain ⟨hi, hcase⟩ :=
              invokeHandler_inv (cfg.handlers cname) pl.params d
            rw [h] at hi hcase
            rcases hcase with he | he | he
            · exact Or.inl he
            · exact Or.inr ⟨hi, Or.inl he⟩
            · exact Or.inr ⟨hi, Or.inr he⟩
          · simp only [Option.some.injEq, Prod.mk.injEq] at h
            exact Or.inl h.1.symm

theorem processLine_mono (cfg : Cfg) (s : String) (d d2 : List Bool)
    (tr : Trace) (h : processLine cfg s d = some (d2, tr)) :
    monoDone d d2 := by
  rcases processLine_inv cfg s d d2 tr h with he | ⟨_, he | he⟩
  · rw [he]
    exact monoDone_refl d
  · rw [he]
    exact doExit_mono d
  · rw [he]
    exact doClose_mono d

theorem runLoop_done (cfg : Cfg) (evs : List InEvent) (d : List Bool)
    (h : selfDone d = true) : runLoop cfg evs d = some d := by
  cases evs with
  | nil => simp [runLoop, h]
  | cons e rest => cases e <;> simp [runLoop, h]

theorem runLoop_mono (cfg : Cfg) (evs : List InEvent) :
    ∀ d d2, runLoop cfg evs d = some d2 → monoDone d d2 := by
  induction evs with
  | nil =>
    intro d d2 h
    simp only [runLoop] at h
    by_cases hd : selfDone d = true
    · rw [if_pos hd] at h
      cases h
      exact monoDone_refl d
    · rw [if_neg hd] at h
      cases h
      exact doExit_mono d
  | cons e rest ih =>
    intro d d2 h
    by_cases hd : selfDone d = true
    · rw [runLoop_done cfg (e :: rest) d hd] at h
      cases h
      exact monoDone_refl d
    · cases e with
      | line s =>
        simp only [runLoop] at h
        rw [if_neg hd] at h
        cases hp : processLine cfg s d with
        | none =>
          rw [hp] at h
          exact Option.noConfusion h
        | some r =>
          rw [hp] at h
          exact monoDone_trans
            (processLine_mono cfg s d r.1 r.2 (by rw [hp]))
            (ih r.1 d2 h)
      | interrupt =>
        simp only [runLoop] at h
        rw [if_neg hd] at h
        exact monoDone_trans (setDone_mono d) (ih (setDone d) d2 h)
      | eof =>
        simp only [runLoop] at h
        rw [if_neg hd] at h
        exact monoDone_trans (doExit_mono d) (ih (doExit d) d2 h)
      | inputError =>
        simp only [runLoop] at h
        rw [if_neg hd] at h
        exact monoDone_trans (setDone_mono d) (ih (setDone d) d2 h)

/-! ## Claim theorems -/
/-- C1: argument binder contract.  For every handler with required count
`R` and total count `T` (`R ≤ T`) and every token list `ps`: if `T = 0`
and `ps` is nonempty the binder rejects (handler never invoked); if there
are fewer tokens than `R` it rejects; if `R ≤ |ps| ≤ T` the tokens pass
through unchanged; if `|ps| > T > 0` the handler receives exactly `T`
arguments, the leading `T - 1` original tokens unchanged and the last one
the space-joined concatenation of the trailing `|ps| - T + 1` tokens. -/
theorem c1_argument_binder (R T : Nat) (ps : List String) (hRT : R ≤ T) :
    (T = 0 → ps.length ≠ 0 → dispatch R T ps = none) ∧
    (ps.length < R → dispatch R T ps = none) ∧
    (R ≤ ps.length → ps.length ≤ T → dispatch R T ps = some ps) ∧
    (T < ps.length → 0 < T →
      dispatch R T ps =
        some (ps.take (T - 1) ++
          [String.intercalate " " (ps.drop (T - 1))]) ∧
      (ps.take (T - 1) ++
          [String.intercalate " " (ps.drop (T - 1))]).length = T ∧
      (ps.drop (T - 1)).length = ps.length - T + 1) := by
  refine ⟨?_, ?_, ?_, ?_⟩
  · intro hT hk
    have : checkParams R T ps.length = false := by
      simp [checkParams, hT, hk]
    simp [dispatch, this]
  · intro hk
    have : checkParams R T ps.length = false := by
      simp only [checkParams]
      rw [if_neg, if_pos hk]
      omega
    simp [dispatch, this]
  · intro hR hTk
    have hchk : checkParams R T ps.length = true := by
      simp only [checkParams]
      rw [if_neg, if_neg]
      · omega
      · rintro ⟨hT0, hk0⟩
        omega
    have hbind : bindArgs T ps = ps := by
      by_cases hnil : ps = []
      · simp [bindArgs, hnil]
      · have : ¬ T < ps.length := by omega
        simp [bindArgs, hnil, this]
    simp [dispatch, hchk, hbind]
  · intro hTk hT
    have hchk : checkParams R T ps.length = true := by
      simp only [checkParams]
      rw [if_neg, if_neg]
      · omega
      · rintro ⟨hT0, _⟩
        omega
    refine ⟨?_, ?_, ?_⟩
    · simp [dispatch, hchk, length_bindArgs_overflow T ps hT hTk]
    · have h1 : (ps.take (T - 1)).length = T - 1 := by
        simp
        omega
      simp only [List.length_append, h1, List.length_cons,
        List.length_nil]
      omega
    · simp
      omega

/-- Closed witness for C1 at a concrete input: a handler with one required
and two total parameters, called with three tokens, receives the first
token unchanged and the last two joined with a space. -/
theorem c1_argument_binder_witness :
    dispatch 1 2 ["alpha", "beta", "gamma"] = some ["alpha", "beta gamma"] := by
  have h :=
    (c1_argument_binder 1 2 ["alpha", "beta", "gamma"]
      (by decide)).2.2.2 (by decide) (by decide)
  simpa using h.1

/-- C2: `do_exit` sets the done flag on the current session and every
ancestor reachable through parent back-pointers (the whole chain becomes
`true`), while `do_close` sets exactly the current session's flag and
leaves every ancestor unchanged. -/
theorem c2_exit_close_propagation :
    (∀ d : List Bool, doExit d = List.replicate d.length true) ∧
    (∀ (b : Bool) (anc : List Bool), doClose (b :: anc) = true :: anc) := by
  refine ⟨doExit_eq_replicate, ?_⟩
  intro b anc
  rfl

/-- C3 (evaluation of the code at the failing input): on the cyclic alias
shell, `_find_command` never settles at any recursion depth — for every
fuel the fueled embedding exhausts its fuel when resolving the name `a`
(and symmetrically `b`).  The Python code therefore recurses without
bound on this input instead of returning `NotFound` within as many steps
as there are alias providers. -/
theorem c3_alias_cycle_divergence (fuel : Nat) :
    findFuel fuel cycShell "a" = none ∧
    findFuel fuel cycShell "b" = none := by
  induction fuel with
  | zero => exact ⟨rfl, rfl⟩
  | succ n ih =>
    constructor
    · rw [findFuel_alias_step cycShell "a" "b" n (by decide) (by decide)]
      exact ih.2
    · rw [findFuel_alias_step cycShell "b" "a" n (by decide) (by decide)]
      exact ih.1

/-- C8 counterexample: in the shell `sh8` the alias provider reports
shorthand `a` for target command `b`, yet resolving the shorthand `a`
yields the binding of command `a` (the exact `do_a` match wins before
aliases are consulted) while resolving the target `b` never yields that
binding — so resolving an alias string does not always equal resolving
the alias's declared target. -/
theorem c8_counterexample :
    resolves sh8 "a" (some "a") ∧ ¬ resolves sh8 "b" (some "a") := by
  constructor
  · exact ⟨1, by decide⟩
  · rintro ⟨fuel, h⟩
    cases fuel with
    | zero => exact Option.noConfusion h
    | succ n =>
      rw [sh8_b_settles n] at h
      exact absurd h (by decide)

/-- C8 amended: for every alias provider with shorthand `s` and target
`t`, provided no command handler is registered directly under the name `s`
and this provider is the first one whose shorthand equals `s`, resolving
`s` settles on exactly the same bindings as resolving `t` directly. -/
theorem c8_alias_target_resolution (sh : ShellMethods) (s t : String)
    (hs : s ∉ sh.cmds)
    (ha : sh.aliases.find? (fun p => p.2 == s) = some (t, s)) :
    ∀ r : Option String, resolves sh s r ↔ resolves sh t r := by
  intro r
  constructor
  · rintro ⟨fuel, h⟩
    cases fuel with
    | zero => exact Option.noConfusion h
    | succ n =>
      rw [findFuel_alias_step sh s t n hs ha] at h
      exact ⟨n, h⟩
  · rintro ⟨fuel, h⟩
    refine ⟨fuel + 1, ?_⟩
    rw [findFuel_alias_step sh s t fuel hs ha]
    exact h

/-- Closed witness for the amended C8 at a concrete shell. -/
theorem c8_alias_target_resolution_witness :
    resolves shW "a" (some "b") ↔ resolves shW "b" (some "b") :=
  c8_alias_target_resolution shW "a" "b" (by decide) (by decide) (some "b")

/-- C6: per-iteration error containment.  On a line that is neither empty
nor a comment: a parse failure, an unresolved command, and an arity
violation are each reported and leave the done chain unchanged with the
handler never invoked; an exception raised by the invoked handler (with
no explicit exit or close on its part) is caught and reported with the
done chain unchanged; whenever a line-processing iteration changes the
done chain at all, the handler was invoked and performed an explicit
`do_exit` or `do_close`; and after any contained outcome the loop
proceeds to the next iteration. -/
theorem c6_error_containment (cfg : Cfg) (s : String) (d : List Bool)
    (h1 : s ≠ "") (h2 : strStartsWith s cfg.commentDelim = false) :
    (cfg.parse (cfg.expand s) = none →
      processLine cfg s d =
        some (d, ⟨true, false, false, ["Parsing error"]⟩)) ∧
    (∀ p, cfg.parse (cfg.expand s) = some p →
      findFuel cfg.fuel cfg.shell p.command = some none →
      processLine cfg s d =
        some (d, ⟨true, true, false, ["Command not found"]⟩)) ∧
    (∀ p c, cfg.parse (cfg.expand s) = some p →
      findFuel cfg.fuel cfg.shell p.command = some (some c) →
      checkParams (cfg.handlers c).req (cfg.handlers c).total
        p.params.length = false →
      processLine cfg s d =
        some (d, ⟨true, true, false, ["Command arity error"]⟩)) ∧
    (∀ p c, cfg.parse (cfg.expand s) = some p →
      findFuel cfg.fuel cfg.shell p.command = some (some c) →
      checkParams (cfg.handlers c).req (cfg.handlers c).total
        p.params.length = true →
      (cfg.handlers c).act (bindArgs (cfg.handlers c).total p.params) =
        (Effect.unchanged, HOutcome.raiseErr) →
      processLine cfg s d =
        some (d, ⟨true, true, true, ["Unknown error detected"]⟩)) ∧
    (∀ d2 tr, processLine cfg s d = some (d2, tr) →
      d2 = d ∨ (tr.invoked = true ∧ (d2 = doExit d ∨ d2 = doClose d))) ∧
    (∀ d2 tr rest, selfDone d = false →
      processLine cfg s d = some (d2, tr) →
      runLoop cfg (InEvent.line s :: rest) d = runLoop cfg rest d2) := by
  refine ⟨?_, ?_, ?_, ?_, ?_, ?_⟩
  · intro hp
    simp [processLine, h1, h2, hp]
  · intro p hp hf
    simp [processLine, h1, h2, hp, hf]
  · intro p c hp hf hchk
    simp [processLine, h1, h2, hp, hf, hchk]
  · intro p c hp hf hchk hact
    simp [processLine, h1, h2, hp, hf, hchk, hact, invokeHandler,
      applyEff, reportOf]
  · intro d2 tr h
    exact processLine_inv cfg s d d2 tr h
  · intro d2 tr rest hd h
    simp only [runLoop]
    rw [if_neg (by simp [hd]), h]

/-- Closed witness for C6: a parse failure on a concrete line is reported
and leaves the done flag of a live session untouched. -/
theorem c6_error_containment_witness :
    processLine cfg7 "   " [false] =
      some ([false], ⟨true, false, false, ["Parsing error"]⟩) :=
  (c6_error_containment cfg7 "   " [false] (by decide) (by decide)).1
    (by decide)

/-- C7 counterexample: a non-empty line consisting only of whitespace is
not silently discarded by the loop: it reaches the tokenizer (the
`tokenized` flag of the iteration trace is set) and the resulting parse
failure is reported at error level — contradicting the claim that a
whitespace-only line undergoes no tokenization and emits no error
report. -/
theorem c7_counterexample :
    processLine cfg7 " " [false] =
      some ([false], ⟨true, false, false, ["Parsing error"]⟩) := by
  decide

/-- C7 amended: a line that starts with the comment delimiter, and an
empty line, are silently discarded — no tokenization, no command
resolution, no handler invocation, no error report, done flags untouched —
and the loop proceeds to the next iteration.  (A non-empty line of only
whitespace is instead passed to the tokenizer and handled as a reported
parse failure, see the counterexample.) -/
theorem c7_comment_blank_skip (cfg : Cfg) (s : String) (d : List Bool)
    (h : s = "" ∨ strStartsWith s cfg.commentDelim = true) :
    processLine cfg s d = some (d, ⟨false, false, false, []⟩) ∧
    (∀ rest : List InEvent, selfDone d = false →
      runLoop cfg (InEvent.line s :: rest) d = runLoop cfg rest d) := by
  have hp : processLine cfg s d = some (d, ⟨false, false, false, []⟩) := by
    rcases h with h | h
    · simp [processLine, h]
    · by_cases hs : s = ""
      · simp [processLine, hs]
      · simp [processLine, hs, h]
  refine ⟨hp, ?_⟩
  intro rest hd
  simp only [runLoop]
  rw [if_neg (by simp [hd]), hp]

/-- Closed witness for the amended C7: a comment line is discarded with an
empty trace. -/
theorem c7_comment_blank_skip_witness :
    processLine cfg7 "# note" [false] =
      some ([false], ⟨false, false, false, []⟩) :=
  (c7_comment_blank_skip cfg7 "# note" [false] (Or.inr (by decide))).1

/-- C9: done-flag monotonicity and re-entrant `run`.  A `run` on a session
whose done flag is already set falls through, returning the chain
untouched and processing no input event; and none of the engine
operations — `do_exit`, `do_close`, input acquisition, a full loop
iteration (handler invocation included) or a whole `run` — ever resets a
done flag from true to false. -/
theorem c9_done_monotone :
    (∀ (cfg : Cfg) (evs : List InEvent) (d : List Bool),
      selfDone d = true → runLoop cfg evs d = some d) ∧
    (∀ d, monoDone d (doExit d)) ∧
    (∀ d, monoDone d (doClose d)) ∧
    (∀ (ev : InEvent) (d : List Bool), monoDone d (getInputEv ev d).2.1) ∧
    (∀ (cfg : Cfg) (s : String) (d d2 : List Bool) (tr : Trace),
      processLine cfg s d = some (d2, tr) → monoDone d d2) ∧
    (∀ (cfg : Cfg) (evs : List InEvent) (d d2 : List Bool),
      runLoop cfg evs d = some d2 → monoDone d d2) := by
  refine ⟨runLoop_done, doExit_mono, doClose_mono, ?_, processLine_mono,
    fun cfg evs => runLoop_mono cfg evs⟩
  intro ev d
  cases ev with
  | line s => exact monoDone_refl d
  | interrupt => exact setDone_mono d
  | eof => exact doExit_mono d
  | inputError => exact setDone_mono d

/-- Closed witness for C9: a finished session ignores a pending line. -/
theorem c9_done_monotone_witness :
    runLoop cfg7 [InEvent.line "exit"] [true] = some [true] :=
  c9_done_monotone.1 cfg7 [InEvent.line "exit"] [true] rfl

/-- C10: an unexpected failure during input acquisition is reported at
error level, sets the current session's done flag (ancestors untouched),
yields no line, and the loop then terminates cleanly on its next check
instead of crashing or retrying. -/
theorem c10_input_error_terminates (anc : List Bool) (cfg : Cfg)
    (evs : List InEvent) :
    getInputEv InEvent.inputError (false :: anc) =
      (none, true :: anc, ["Unexpected error during input sequence"]) ∧
    runLoop cfg (InEvent.inputError :: evs) (false :: anc) =
      some (true :: anc) := by
  constructor
  · rfl
  · simp only [runLoop]
    rw [if_neg (by simp [selfDone])]
    exact runLoop_done cfg evs (true :: anc) rfl

/-- C4 (evaluation of the code at the failing input): with the parent
holding history entries `a, b`, a nested scope whose body appends `c, d`
and then raises leaves the in-memory buffer holding the child's entries
`c, d` — the clear-and-reload restore of the parent's snapshot is
skipped because it is not in a `finally` block — while the exception
propagates and the completer is restored.  This contradicts the claim
(and the module's own docstring) that the parent's buffer is restored on
every exit path. -/
theorem c4_restore_skipped :
    (auto_complete_manager true "cb" (some "hist") "tmp" c4_body
        c4_parent_state).2 = ExitKind.raised ∧
    (auto_complete_manager true "cb" (some "hist") "tmp" c4_body
        c4_parent_state).1.history = ["c", "d"] ∧
    (auto_complete_manager true "cb" (some "hist") "tmp" c4_body
        c4_parent_state).1.completer = some "old" := by
  refine ⟨rfl, rfl, rfl⟩

/-- C5: history-isolation round trip on normal exit.  For every parent
buffer `[a, b]`, entering a nested scope whose body appends `[c, d]` and
returns normally leaves the parent's in-memory buffer exactly `[a, b]`,
persists exactly `[c, d]` to the child's history file (fresh path,
distinct from the temporary snapshot), reports a normal exit, and
restores the previously installed completer. -/
theorem c5_history_round_trip (a b c d : String) (callback : String)
    (oldcb : Option String) (fs : String → Option (List String))
    (hp tmp : String) (h1 : hp ≠ "") (h2 : hp ≠ tmp) (h3 : fs hp = none) :
    ((auto_complete_manager true callback (some hp) tmp
        (fun st => ({ st with history := st.history ++ [c, d] },
          ExitKind.normal))
        ⟨[a, b], oldcb, fs⟩).1.history = [a, b]) ∧
    ((auto_complete_manager true callback (some hp) tmp
        (fun st => ({ st with history := st.history ++ [c, d] },
          ExitKind.normal))
        ⟨[a, b], oldcb, fs⟩).1.files hp = some [c, d]) ∧
    ((auto_complete_manager true callback (some hp) tmp
        (fun st => ({ st with history := st.history ++ [c, d] },
          ExitKind.normal))
        ⟨[a, b], oldcb, fs⟩).2 = ExitKind.normal) ∧
    ((auto_complete_manager true callback (some hp) tmp
        (fun st => ({ st with history := st.history ++ [c, d] },
          ExitKind.normal))
        ⟨[a, b], oldcb, fs⟩).1.completer = oldcb) := by
  have h2' : tmp ≠ hp := fun e => h2 e.symm
  refine ⟨?_, ?_, ?_, ?_⟩ <;>
    simp [auto_complete_manager, autocomplete_helper, createFile,
      write_history_file, clear_history, read_history_file, removeFile,
      writeCap, historyCap, h1, h2, h2', h3]

/-- Closed witness for C5 at concrete strings. -/
theorem c5_history_round_trip_witness :
    (auto_complete_manager true "cb" (some "hist") "tmp"
        (fun st => ({ st with history := st.history ++ ["c", "d"] },
          ExitKind.normal))
        ⟨["a", "b"], some "old", fun _ => none⟩).1.history = ["a", "b"] :=
  (c5_history_round_trip "a" "b" "c" "d" "cb" (some "old") (fun _ => none)
    "hist" "tmp" (by decide) (by decide) rfl).1

end FriendlyShell
